import Mathlib

/-!
Verification of the rotation-geometry utilities and the SPD Bayesian-optimization
example of the GaBOflow repository.

The functions `vector_to_skew_matrix` and `rotation_matrix_from_axis_angle` are
shallow embeddings of `BoManifolds/Riemannian_utils/geometry_utils.py`; the
definitions `dim_vec`, `base` and `test_function` embed the corresponding pieces
of `examples/bo_spd/benchmark_examples/bo_spd_ackley_manifold.py`.  Machine
floating-point arithmetic is modelled by real arithmetic; NumPy arrays by
`Matrix (Fin n) (Fin n) ℝ` and `Fin n → ℝ`.
-/

open Matrix

namespace GaBO

/-- Embedding of `geometry_utils.vector_to_skew_matrix`:
`np.array([[0, -q[2], q[1]], [q[2], 0, -q[0]], [-q[1], q[0], 0]])`. -/
def vector_to_skew_matrix (q : Fin 3 → ℝ) : Matrix (Fin 3) (Fin 3) ℝ :=
  !![0, -q 2, q 1; q 2, 0, -q 0; -q 1, q 0, 0]

/-- Embedding of `geometry_utils.rotation_matrix_from_axis_angle`:
`np.eye(3) + np.sin(angle)*utilde + (1 - np.cos(angle))*utilde.dot(utilde)`
with `utilde = vector_to_skew_matrix(ax)`. -/
noncomputable def rotation_matrix_from_axis_angle (ax : Fin 3 → ℝ) (angle : ℝ) :
    Matrix (Fin 3) (Fin 3) ℝ :=
  1 + Real.sin angle • vector_to_skew_matrix ax
    + (1 - Real.cos angle) • (vector_to_skew_matrix ax * vector_to_skew_matrix ax)

/-- Euclidean norm of a 3-vector (`np.linalg.norm`), used to state the
non-renormalization claim about the rotation axis. -/
noncomputable def euclideanNorm3 (q : Fin 3 → ℝ) : ℝ :=
  Real.sqrt (q 0 ^ 2 + q 1 ^ 2 + q 2 ^ 2)

/-- Embedding of `dim_vec = int(dim + dim * (dim - 1) / 2)` from
`bo_spd_ackley_manifold.py` (the Python float division is exact here since
`dim * (dim - 1)` is even, so natural-number division models it faithfully). -/
def dim_vec (dim : ℕ) : ℕ :=
  dim + dim * (dim - 1) / 2

/-- Embedding of `base = np.array([[2.5, -0.7], [-0.7, 2.3]])` from
`bo_spd_ackley_manifold.py`. -/
noncomputable def base : Matrix (Fin 2) (Fin 2) ℝ :=
  !![2.5, -0.7; -0.7, 2.3]

/-- Embedding of `test_function` from `bo_spd_ackley_manifold.py`.  The SPD
helpers `vector_to_symmetric_matrix_mandel` (from
`BoManifolds/Riemannian_utils/SPD_utils.py`) and `spd_manifold.log` (from
pymanopt) are not part of the two sampled source files, so they are passed as
parameters `v2m` and `log`; the body is the Ackley expression of the source
(`a = 20`, `b = 0.2`, `c = 2π`) evaluated on `x_proj = log(base, v2m(x))`,
returned as a 1×1 array (`y[None, None]`). -/
noncomputable def test_function
    (v2m : (Fin 3 → ℝ) → Matrix (Fin 2) (Fin 2) ℝ)
    (log : Matrix (Fin 2) (Fin 2) ℝ → Matrix (Fin 2) (Fin 2) ℝ → Matrix (Fin 2) (Fin 2) ℝ)
    (x : Fin 3 → ℝ) : Matrix (Fin 1) (Fin 1) ℝ :=
  Matrix.of fun _ _ =>
    -(20 : ℝ) * Real.exp (-(0.2 : ℝ) *
        Real.sqrt ((log base (v2m x) 0 0 ^ 2 + log base (v2m x) 1 1 ^ 2
          + log base (v2m x) 1 0 ^ 2) / 3))
      - Real.exp ((Real.cos (2 * Real.pi * log base (v2m x) 0 0)
          + Real.cos (2 * Real.pi * log base (v2m x) 1 1)
          + Real.cos (2 * Real.pi * log base (v2m x) 1 0)) / 3)
      + 20 + Real.exp 1

/-- The submodule of symmetric `d × d` real matrices, used to state that the
Mandel vector dimension is the dimension of the space of symmetric matrices. -/
def symmetricMatrixSubmodule (d : ℕ) : Submodule ℝ (Matrix (Fin d) (Fin d) ℝ) where
  carrier := {A | A.IsSymm}
  add_mem' ha hb := Matrix.IsSymm.add ha hb
  zero_mem' := Matrix.isSymm_zero
  smul_mem' c _ ha := Matrix.IsSymm.smul ha c

/-- Linear equivalence between the symmetric `d × d` matrices and functions on
unordered index pairs, exhibiting the dimension of the symmetric matrices as
the number of unordered pairs `{i, j}` (with repetition). -/
noncomputable def symmEquivSym2 (d : ℕ) :
    symmetricMatrixSubmodule d ≃ₗ[ℝ] (Sym2 (Fin d) → ℝ) where
  toFun A := Sym2.lift ⟨fun i j => (A : Matrix (Fin d) (Fin d) ℝ) i j,
    fun i j => by
      have h := A.2
      simpa using congrFun (congrFun h.eq j) i⟩
  map_add' A B := by
    funext s
    induction s using Sym2.ind with
    | _ i j => simp
  map_smul' c A := by
    funext s
    induction s using Sym2.ind with
    | _ i j => simp
  invFun f := ⟨Matrix.of fun i j => f s(i, j), by
    ext i j
    simp [Matrix.IsSymm, Matrix.transpose_apply, Sym2.eq_swap]⟩
  left_inv A := by
    ext i j
    simp
  right_inv f := by
    funext s
    induction s using Sym2.ind with
    | _ i j => simp

end GaBO

namespace GaBO

/- Helper lemmas about the skew matrix and the rotation matrix, shared by
several of the theorems below. -/

lemma skew_mulVec (q v : Fin 3 → ℝ) :
    (vector_to_skew_matrix q).mulVec v =
      ![q 1 * v 2 - q 2 * v 1, q 2 * v 0 - q 0 * v 2, q 0 * v 1 - q 1 * v 0] := by
  funext i
  fin_cases i <;>
    simp [vector_to_skew_matrix, Matrix.mulVec, Matrix.dotProduct,
      Fin.sum_univ_three] <;> ring

lemma skew_transpose (q : Fin 3 → ℝ) :
    (vector_to_skew_matrix q)ᵀ = -vector_to_skew_matrix q := by
  ext i j
  fin_cases i <;> fin_cases j <;> simp [vector_to_skew_matrix]

lemma rot_explicit (ax : Fin 3 → ℝ) (θ : ℝ) :
    rotation_matrix_from_axis_angle ax θ =
      !![1 + (1 - Real.cos θ) * (-(ax 2 ^ 2) - ax 1 ^ 2),
         -(Real.sin θ * ax 2) + (1 - Real.cos θ) * (ax 1 * ax 0),
         Real.sin θ * ax 1 + (1 - Real.cos θ) * (ax 2 * ax 0);
         Real.sin θ * ax 2 + (1 - Real.cos θ) * (ax 0 * ax 1),
         1 + (1 - Real.cos θ) * (-(ax 2 ^ 2) - ax 0 ^ 2),
         -(Real.sin θ * ax 0) + (1 - Real.cos θ) * (ax 2 * ax 1);
         -(Real.sin θ * ax 1) + (1 - Real.cos θ) * (ax 0 * ax 2),
         Real.sin θ * ax 0 + (1 - Real.cos θ) * (ax 1 * ax 2),
         1 + (1 - Real.cos θ) * (-(ax 1 ^ 2) - ax 0 ^ 2)] := by
  ext i j
  fin_cases i <;> fin_cases j <;>
    simp [rotation_matrix_from_axis_angle, vector_to_skew_matrix, Matrix.mul_apply,
      Fin.sum_univ_three, Matrix.one_apply] <;>
    (first
      | ring1
      | (left; ring1))

lemma rot_transpose_explicit (ax : Fin 3 → ℝ) (θ : ℝ) :
    (rotation_matrix_from_axis_angle ax θ)ᵀ =
      !![1 + (1 - Real.cos θ) * (-(ax 2 ^ 2) - ax 1 ^ 2),
         Real.sin θ * ax 2 + (1 - Real.cos θ) * (ax 0 * ax 1),
         -(Real.sin θ * ax 1) + (1 - Real.cos θ) * (ax 0 * ax 2);
         -(Real.sin θ * ax 2) + (1 - Real.cos θ) * (ax 1 * ax 0),
         1 + (1 - Real.cos θ) * (-(ax 2 ^ 2) - ax 0 ^ 2),
         Real.sin θ * ax 0 + (1 - Real.cos θ) * (ax 1 * ax 2);
         Real.sin θ * ax 1 + (1 - Real.cos θ) * (ax 2 * ax 0),
         -(Real.sin θ * ax 0) + (1 - Real.cos θ) * (ax 2 * ax 1),
         1 + (1 - Real.cos θ) * (-(ax 1 ^ 2) - ax 0 ^ 2)] := by
  rw [rot_explicit]
  ext i j
  fin_cases i <;> fin_cases j <;> rfl

end GaBO

namespace GaBO

/-- C1: `rotation_matrix_from_axis_angle(ax, θ)` returns exactly
`I + sin(θ)·K + (1−cos(θ))·K²` where `K = vector_to_skew_matrix(ax)`. -/
theorem rotation_matrix_eq_rodrigues (ax : Fin 3 → ℝ) (θ : ℝ) :
    rotation_matrix_from_axis_angle ax θ =
      1 + Real.sin θ • vector_to_skew_matrix ax
        + (1 - Real.cos θ) • (vector_to_skew_matrix ax * vector_to_skew_matrix ax) :=
  rfl

/-- C3: `rotation_matrix_from_axis_angle(ax, 0)` is the 3×3 identity matrix. -/
theorem rotation_matrix_angle_zero (ax : Fin 3 → ℝ) :
    rotation_matrix_from_axis_angle ax 0 = 1 := by
  simp [rotation_matrix_from_axis_angle]

/-- C4: `vector_to_skew_matrix(q)` applied to `v` is the cross product `q × v`,
and the matrix is skew-symmetric. -/
theorem skew_matrix_is_cross_product (q v : Fin 3 → ℝ) :
    (vector_to_skew_matrix q).mulVec v = crossProduct q v ∧
      (vector_to_skew_matrix q)ᵀ = -vector_to_skew_matrix q := by
  refine ⟨?_, skew_transpose q⟩
  rw [skew_mulVec, cross_apply]

/-- C2: for a unit axis, rotating by the angle π sends every vector orthogonal
to the axis to its negation. -/
theorem rotation_matrix_pi_negates_orthogonal (ax v : Fin 3 → ℝ)
    (hnorm : ax 0 ^ 2 + ax 1 ^ 2 + ax 2 ^ 2 = 1)
    (hdot : ax 0 * v 0 + ax 1 * v 1 + ax 2 * v 2 = 0) :
    (rotation_matrix_from_axis_angle ax Real.pi).mulVec v = -v := by
  funext i
  fin_cases i
  · simp [rotation_matrix_from_axis_angle, vector_to_skew_matrix, Matrix.mulVec,
      Matrix.dotProduct, Fin.sum_univ_three, Matrix.mul_apply, Matrix.one_apply,
      Real.sin_pi, Real.cos_pi]
    linear_combination 2 * ax 0 * hdot - 2 * v 0 * hnorm
  · simp [rotation_matrix_from_axis_angle, vector_to_skew_matrix, Matrix.mulVec,
      Matrix.dotProduct, Fin.sum_univ_three, Matrix.mul_apply, Matrix.one_apply,
      Real.sin_pi, Real.cos_pi]
    linear_combination 2 * ax 1 * hdot - 2 * v 1 * hnorm
  · simp [rotation_matrix_from_axis_angle, vector_to_skew_matrix, Matrix.mulVec,
      Matrix.dotProduct, Fin.sum_univ_three, Matrix.mul_apply, Matrix.one_apply,
      Real.sin_pi, Real.cos_pi]
    linear_combination 2 * ax 2 * hdot - 2 * v 2 * hnorm

/-- C2 witness: the axis `(1,0,0)` is unit-norm, `(0,1,0)` is orthogonal to it,
and the rotation by π sends `(0,1,0)` to its negation. -/
theorem rotation_matrix_pi_negates_orthogonal_witness :
    ((![1, 0, 0] : Fin 3 → ℝ) 0 ^ 2 + (![1, 0, 0] : Fin 3 → ℝ) 1 ^ 2
        + (![1, 0, 0] : Fin 3 → ℝ) 2 ^ 2 = 1) ∧
      ((![1, 0, 0] : Fin 3 → ℝ) 0 * (![0, 1, 0] : Fin 3 → ℝ) 0
        + (![1, 0, 0] : Fin 3 → ℝ) 1 * (![0, 1, 0] : Fin 3 → ℝ) 1
        + (![1, 0, 0] : Fin 3 → ℝ) 2 * (![0, 1, 0] : Fin 3 → ℝ) 2 = 0) ∧
      (rotation_matrix_from_axis_angle ![1, 0, 0] Real.pi).mulVec ![0, 1, 0]
        = -![0, 1, 0] :=
  ⟨by norm_num, by norm_num,
    rotation_matrix_pi_negates_orthogonal ![1, 0, 0] ![0, 1, 0]
      (by norm_num) (by norm_num)⟩

/-- C9: the rotation axis is a fixed point of the returned matrix, for every
axis (unit-norm or not) and every angle. -/
theorem rotation_matrix_fixes_axis (ax : Fin 3 → ℝ) (θ : ℝ) :
    (rotation_matrix_from_axis_angle ax θ).mulVec ax = ax := by
  funext i
  fin_cases i <;>
    simp [rotation_matrix_from_axis_angle, vector_to_skew_matrix,
      Matrix.mulVec, Matrix.dotProduct, Fin.sum_univ_three, Matrix.mul_apply,
      Matrix.one_apply] <;> ring

/-- C8: for a unit axis the returned matrix is orthogonal: `Rᵀ * R = 1`. -/
theorem rotation_matrix_orthogonal (ax : Fin 3 → ℝ) (θ : ℝ)
    (hnorm : ax 0 ^ 2 + ax 1 ^ 2 + ax 2 ^ 2 = 1) :
    (rotation_matrix_from_axis_angle ax θ)ᵀ * rotation_matrix_from_axis_angle ax θ
      = 1 := by
  have hp : Real.sin θ ^ 2 + Real.cos θ ^ 2 = 1 := Real.sin_sq_add_cos_sq θ
  rw [rot_transpose_explicit, rot_explicit]
  ext i j
  fin_cases i <;> fin_cases j <;>
    simp [Matrix.mul_apply, Fin.sum_univ_three, Matrix.one_apply]
  · linear_combination (ax 1 ^ 2 + ax 2 ^ 2) * hp +
      (ax 1 ^ 2 + ax 2 ^ 2) * (1 - Real.cos θ) ^ 2 * hnorm
  · linear_combination (-(ax 0 * ax 1)) * hp +
      (-(ax 0 * ax 1)) * (1 - Real.cos θ) ^ 2 * hnorm
  · linear_combination (-(ax 0 * ax 2)) * hp +
      (-(ax 0 * ax 2)) * (1 - Real.cos θ) ^ 2 * hnorm
  · linear_combination (-(ax 0 * ax 1)) * hp +
      (-(ax 0 * ax 1)) * (1 - Real.cos θ) ^ 2 * hnorm
  · linear_combination (ax 0 ^ 2 + ax 2 ^ 2) * hp +
      (ax 0 ^ 2 + ax 2 ^ 2) * (1 - Real.cos θ) ^ 2 * hnorm
  · linear_combination (-(ax 1 * ax 2)) * hp +
      (-(ax 1 * ax 2)) * (1 - Real.cos θ) ^ 2 * hnorm
  · linear_combination (-(ax 0 * ax 2)) * hp +
      (-(ax 0 * ax 2)) * (1 - Real.cos θ) ^ 2 * hnorm
  · linear_combination (-(ax 1 * ax 2)) * hp +
      (-(ax 1 * ax 2)) * (1 - Real.cos θ) ^ 2 * hnorm
  · linear_combination (ax 0 ^ 2 + ax 1 ^ 2) * hp +
      (ax 0 ^ 2 + ax 1 ^ 2) * (1 - Real.cos θ) ^ 2 * hnorm

/-- C8 witness: instantiation at the unit axis `(1,0,0)` and the angle 0. -/
theorem rotation_matrix_orthogonal_witness :
    ((![1, 0, 0] : Fin 3 → ℝ) 0 ^ 2 + (![1, 0, 0] : Fin 3 → ℝ) 1 ^ 2
        + (![1, 0, 0] : Fin 3 → ℝ) 2 ^ 2 = 1) ∧
      (rotation_matrix_from_axis_angle ![1, 0, 0] 0)ᵀ
        * rotation_matrix_from_axis_angle ![1, 0, 0] 0 = 1 :=
  ⟨by norm_num, rotation_matrix_orthogonal ![1, 0, 0] 0 (by norm_num)⟩

/-- C5: the Rodrigues formula is applied to the axis exactly as given, never
renormalized: for the axis `(2,0,0)` (of norm 2) and the angle π the result
differs from the one for the normalized axis. -/
theorem rotation_matrix_not_renormalized :
    ∃ (ax : Fin 3 → ℝ) (θ : ℝ), euclideanNorm3 ax ≠ 1 ∧
      rotation_matrix_from_axis_angle ax θ ≠
        rotation_matrix_from_axis_angle (fun i => ax i / euclideanNorm3 ax) θ := by
  have hn : euclideanNorm3 ![2, 0, 0] = 2 := by
    have h4 : ((2 : ℝ) ^ 2 + 0 ^ 2 + 0 ^ 2) = 2 ^ 2 := by norm_num
    simp only [euclideanNorm3, Matrix.cons_val_zero, Matrix.cons_val_one,
      Matrix.head_cons, Matrix.cons_val_two, Matrix.tail_cons, h4]
    exact Real.sqrt_sq (by norm_num)
  refine ⟨![2, 0, 0], Real.pi, ?_, ?_⟩
  · rw [hn]; norm_num
  · intro hcontra
    simp only [hn] at hcontra
    have h11 := congrFun (congrFun hcontra 1) 1
    simp [rotation_matrix_from_axis_angle, vector_to_skew_matrix,
      Matrix.mul_apply, Fin.sum_univ_three, Matrix.one_apply,
      Real.sin_pi, Real.cos_pi] at h11
    norm_num at h11

/-- C7: the Mandel vector dimension `dim_vec = dim + dim·(dim−1)/2` equals the
dimension of the space of symmetric `dim × dim` matrices for every positive
`dim`, and `dim_vec 2 = 3`. -/
theorem dim_vec_eq_symmetric_dim (dim : ℕ) (h : 0 < dim) :
    dim_vec dim = Module.finrank ℝ (symmetricMatrixSubmodule dim) ∧ dim_vec 2 = 3 := by
  constructor
  · have hr : Module.finrank ℝ (symmetricMatrixSubmodule dim)
        = Fintype.card (Sym2 (Fin dim)) := by
      rw [(symmEquivSym2 dim).finrank_eq, Module.finrank_pi]
    rw [hr, Sym2.card, Fintype.card_fin, Nat.choose_two_right]
    have key : (dim + 1) * dim = dim * (dim - 1) + dim * 2 := by
      cases dim with
      | zero => rfl
      | succ n => simp [Nat.succ_sub_one]; ring
    simp only [Nat.add_sub_cancel]
    rw [key, Nat.add_mul_div_right _ _ (by norm_num : 0 < 2)]
    unfold dim_vec
    omega
  · rfl

/-- C7 witness: instantiation at `dim = 2`. -/
theorem dim_vec_eq_symmetric_dim_witness :
    0 < 2 ∧ (dim_vec 2 = Module.finrank ℝ (symmetricMatrixSubmodule 2) ∧ dim_vec 2 = 3) :=
  ⟨by decide, dim_vec_eq_symmetric_dim 2 (by decide)⟩

/-- C10: under the hypotheses that the Mandel decoding inverts the encoding on
`base` and that the SPD logarithm of `base` at `base` is the zero matrix, the
example's `test_function` evaluated at the Mandel encoding of `base` is the
1×1 zero array, so `true_opt_val = 0`. -/
theorem test_function_at_base
    (v2m : (Fin 3 → ℝ) → Matrix (Fin 2) (Fin 2) ℝ)
    (m2v : Matrix (Fin 2) (Fin 2) ℝ → (Fin 3 → ℝ))
    (log : Matrix (Fin 2) (Fin 2) ℝ → Matrix (Fin 2) (Fin 2) ℝ → Matrix (Fin 2) (Fin 2) ℝ)
    (hinv : v2m (m2v base) = base)
    (hlog : log base base = 0) :
    test_function v2m log (m2v base) = 0 := by
  ext i j
  simp only [test_function, hinv, hlog, Matrix.zero_apply, Matrix.of_apply]
  norm_num [Real.sqrt_zero, Real.exp_zero, Real.cos_zero]
  ring

/-- C10 witness: instantiation with a decoder that is constantly `base` and a
logarithm map that is constantly the zero matrix, for which both hypotheses
hold definitionally. -/
theorem test_function_at_base_witness :
    ((fun _ : Fin 3 → ℝ => base)
        ((fun _ : Matrix (Fin 2) (Fin 2) ℝ => (0 : Fin 3 → ℝ)) base) = base) ∧
      ((fun _ _ : Matrix (Fin 2) (Fin 2) ℝ => (0 : Matrix (Fin 2) (Fin 2) ℝ)) base base
        = 0) ∧
      test_function (fun _ => base) (fun _ _ => 0)
        ((fun _ : Matrix (Fin 2) (Fin 2) ℝ => (0 : Fin 3 → ℝ)) base) = 0 :=
  ⟨rfl, rfl, test_function_at_base (fun _ => base)
    (fun _ => (0 : Fin 3 → ℝ)) (fun _ _ => 0) rfl rfl⟩

end GaBO
